import Mathlib

/-!
Verification of the `software-rasterizer` repository against its
natural-language specification.

Part 1 embeds the application skeleton in `src/main.cpp`: the SDL
initialization / teardown paths with their RAII deleters, and the main
event loop (poll events; `SDL_QUIT` stops the loop; clear and present
each frame).

Part 2 embeds the software-rasterization core that the specification
describes (framebuffer, top-left-rule triangle rasterizer, depth test,
submission pipeline).  That core has no code under `src/`, so its
definitions are modelled from the specification's words; each such
definition carries a `Modelled from the spec:` doc comment.
-/

namespace SWRast

/-! ### Part 1: the `main.cpp` skeleton -/

/-- Events delivered by `SDL_PollEvent`: `quit` is `SDL_QUIT`; `other n`
stands for any other event type (keyboard, mouse, window, ...). -/
inductive SDLEvent where
  | quit : SDLEvent
  | other : Nat → SDLEvent
deriving DecidableEq, Repr

/-- Observable actions performed by `main` (resource teardown and the
per-frame rendering calls), in the order they are executed. -/
inductive MainAction where
  | sdlQuitCall : MainAction
  | destroyWindow : MainAction
  | destroyRenderer : MainAction
  | setDrawColor : Nat → Nat → Nat → Nat → MainAction
  | renderClear : MainAction
  | renderPresent : MainAction
deriving DecidableEq, Repr

/-- `EXIT_SUCCESS`. -/
def EXIT_SUCCESS : Nat := 0

/-- `EXIT_FAILURE`. -/
def EXIT_FAILURE : Nat := 1

/-- The body of the inner `while (SDL_PollEvent(&event))` loop,
main.cpp lines 84-87: only `SDL_QUIT` touches `running`. -/
def handleEvent (running : Bool) (e : SDLEvent) : Bool :=
  match e with
  | SDLEvent.quit => false
  | SDLEvent.other _ => running

/-- Draining the event queue for one iteration of the outer loop:
`SDL_PollEvent` until empty, handling each event (main.cpp lines 83-88). -/
def pollEvents (running : Bool) (batch : List SDLEvent) : Bool :=
  batch.foldl handleEvent running

/-- The rendering calls of one iteration, main.cpp lines 92-100:
set draw color (20,20,30,255), clear, present — in that order. -/
def frameRender : List MainAction :=
  [MainAction.setDrawColor 20 20 30 255, MainAction.renderClear,
   MainAction.renderPresent]

/-- `frameRender` repeated `n` times. -/
def repeatRender : Nat → List MainAction
  | 0 => []
  | n + 1 => frameRender ++ repeatRender n

/-- The `while (running)` loop of main.cpp lines 80-101, fed a finite
supply of per-iteration event batches (the events `SDL_PollEvent` yields
on each iteration).  Returns `(some EXIT_SUCCESS, trace)` if the loop
exited within the supply, `(none, trace)` if it is still running when the
supply ends.  The iteration that polls `SDL_QUIT` still renders its frame
before the `while` condition is re-tested. -/
def mainLoop : List (List SDLEvent) → Option Nat × List MainAction
  | [] => (none, [])
  | b :: bs =>
    if pollEvents true b then
      ((mainLoop bs).1, frameRender ++ (mainLoop bs).2)
    else
      (some EXIT_SUCCESS, frameRender)

/-- Number of iterations the loop body executes on a given supply. -/
def itersRun : List (List SDLEvent) → Nat
  | [] => 0
  | b :: bs => if pollEvents true b then itersRun bs + 1 else 1

/-- `SdlWindowDeleter` (main.cpp lines 11-17): destroys the window only
when the handle is non-null, i.e. only when the window was acquired. -/
def sdlWindowDeleterRun (acquired : Bool) : List MainAction :=
  if acquired then [MainAction.destroyWindow] else []

/-- `SdlRendererDeleter` (main.cpp lines 19-25): destroys the renderer
only when the handle is non-null. -/
def sdlRendererDeleterRun (acquired : Bool) : List MainAction :=
  if acquired then [MainAction.destroyRenderer] else []

/-- `main` (main.cpp lines 32-111).  `initOk`, `winOk`, `renOk` are the
outcomes of `SDL_Init`, `SDL_CreateWindow`, `SDL_CreateRenderer`.
Returns the exit code (`none` when the loop is still running after the
event supply) and the trace of teardown / rendering actions in execution
order.  On the `SDL_CreateRenderer` failure path `SDL_Quit()` runs before
the scope-exit destructor of the window `unique_ptr`; on the success path
the renderer is destroyed before the window (reverse declaration order). -/
def mainRun (initOk winOk renOk : Bool) (batches : List (List SDLEvent)) :
    Option Nat × List MainAction :=
  if !initOk then
    (some EXIT_FAILURE, [])
  else if !winOk then
    (some EXIT_FAILURE, [MainAction.sdlQuitCall] ++ sdlWindowDeleterRun false)
  else if !renOk then
    (some EXIT_FAILURE,
      [MainAction.sdlQuitCall] ++ sdlRendererDeleterRun false ++
        sdlWindowDeleterRun true)
  else
    match mainLoop batches with
    | (none, tr) => (none, tr)
    | (some c, tr) =>
      (some c,
        tr ++ [MainAction.sdlQuitCall] ++ sdlRendererDeleterRun true ++
          sdlWindowDeleterRun true)

/-- Draining a batch leaves `running = false` exactly when it was already
false or the batch contains `SDL_QUIT`. -/
theorem pollEvents_eq_false_iff (r : Bool) (b : List SDLEvent) :
    pollEvents r b = false ↔ (r = false ∨ SDLEvent.quit ∈ b) := by
  induction b generalizing r with
  | nil => simp [pollEvents]
  | cons e es ih =>
    cases e with
    | quit =>
      simp only [pollEvents, List.foldl_cons] at *
      constructor
      · intro _; right; exact List.mem_cons_self _ _
      · intro _
        have : handleEvent r SDLEvent.quit = false := rfl
        rw [this]
        have := (ih false).mpr (Or.inl rfl)
        simpa [pollEvents] using this
    | other n =>
      simp only [pollEvents, List.foldl_cons] at *
      have hh : handleEvent r (SDLEvent.other n) = r := rfl
      rw [hh, ih r]
      constructor
      · rintro (h | h)
        · exact Or.inl h
        · exact Or.inr (List.mem_cons_of_mem _ h)
      · rintro (h | h)
        · exact Or.inl h
        · rcases List.mem_cons.mp h with h | h
          · cases h
          · exact Or.inr h

/-- The loop trace is exactly `frameRender` once per executed iteration. -/
theorem mainLoop_trace (bs : List (List SDLEvent)) :
    (mainLoop bs).2 = repeatRender (itersRun bs) := by
  induction bs with
  | nil => rfl
  | cons b bs ih =>
    cases h : pollEvents true b with
    | true => simp [mainLoop, itersRun, h, ih, repeatRender]
    | false => simp [mainLoop, itersRun, h, repeatRender]

/-- The loop has exited (with `EXIT_SUCCESS`) exactly when some polled
batch contained `SDL_QUIT`. -/
theorem mainLoop_exits_iff (bs : List (List SDLEvent)) :
    (mainLoop bs).1 = some EXIT_SUCCESS ↔ ∃ b ∈ bs, SDLEvent.quit ∈ b := by
  induction bs with
  | nil => simp [mainLoop]
  | cons b bs ih =>
    cases h : pollEvents true b with
    | true =>
      have hq : ¬ SDLEvent.quit ∈ b := by
        intro hmem
        have hf := (pollEvents_eq_false_iff true b).mpr (Or.inr hmem)
        rw [h] at hf
        exact absurd hf (by decide)
      simp only [mainLoop, h, if_true, ih]
      constructor
      · intro ⟨c, hc, hqc⟩; exact ⟨c, List.mem_cons_of_mem _ hc, hqc⟩
      · rintro ⟨c, hc, hqc⟩
        rcases List.mem_cons.mp hc with rfl | hc
        · exact absurd hqc hq
        · exact ⟨c, hc, hqc⟩
    | false =>
      have hq : SDLEvent.quit ∈ b := by
        rcases (pollEvents_eq_false_iff true b).mp h with h' | h'
        · cases h'
        · exact h'
      simp only [mainLoop, h, Bool.false_eq_true, if_false, true_iff]
      exact ⟨b, List.mem_cons_self _ _, hq⟩

/-- C1: in the main event loop, no polled event other than `SDL_QUIT`
changes program state, and for every sequence of polled event batches the
loop exits (returning `EXIT_SUCCESS`) if and only if an `SDL_QUIT` event
has been polled. -/
theorem eventLoop_quit_only (bs : List (List SDLEvent)) :
    ((mainLoop bs).1 = some EXIT_SUCCESS ↔ ∃ b ∈ bs, SDLEvent.quit ∈ b) ∧
      (∀ (r : Bool) (n : Nat), handleEvent r (SDLEvent.other n) = r) :=
  ⟨mainLoop_exits_iff bs, fun _ _ => rfl⟩

/-- C2: every iteration of the main loop performs exactly one
`SDL_SetRenderDrawColor(20,20,30,255)`, one `SDL_RenderClear` and one
`SDL_RenderPresent`, in that order — the loop's trace is `frameRender`
repeated once per iteration. -/
theorem render_once_per_iteration (bs : List (List SDLEvent)) :
    (mainLoop bs).2 = repeatRender (itersRun bs) ∧
      frameRender = [MainAction.setDrawColor 20 20 30 255,
        MainAction.renderClear, MainAction.renderPresent] :=
  ⟨mainLoop_trace bs, rfl⟩

/-- C10: once a batch containing `SDL_QUIT` is polled (after `k` earlier
quit-free iterations), the loop still renders that iteration's frame —
exactly `k + 1` frames in total — and then exits; `main` tears down and
returns `EXIT_SUCCESS`. -/
theorem quit_renders_last_frame (pre : List (List SDLEvent))
    (b : List SDLEvent) (post : List (List SDLEvent))
    (hpre : ∀ c ∈ pre, SDLEvent.quit ∉ c) (hb : SDLEvent.quit ∈ b) :
    mainRun true true true (pre ++ b :: post) =
      (some EXIT_SUCCESS,
        repeatRender (pre.length + 1) ++
          [MainAction.sdlQuitCall, MainAction.destroyRenderer,
            MainAction.destroyWindow]) := by
  have hloop : mainLoop (pre ++ b :: post) =
      (some EXIT_SUCCESS, repeatRender (pre.length + 1)) := by
    induction pre with
    | nil =>
      have hfalse : pollEvents true b = false :=
        (pollEvents_eq_false_iff true b).mpr (Or.inr hb)
      simp [mainLoop, hfalse, repeatRender]
    | cons c pre ih =>
      have hc : SDLEvent.quit ∉ c := hpre c (List.mem_cons_self _ _)
      have htrue : pollEvents true c = true := by
        cases h : pollEvents true c with
        | true => rfl
        | false =>
          rcases (pollEvents_eq_false_iff true c).mp h with h' | h'
          · cases h'
          · exact absurd h' hc
      have ih' := ih (fun d hd => hpre d (List.mem_cons_of_mem _ hd))
      simp only [List.cons_append, mainLoop, htrue, if_true, List.append_eq]
      rw [ih']
      simp [repeatRender]
  simp [mainRun, hloop, sdlRendererDeleterRun, sdlWindowDeleterRun]

/-- C3: whenever `main` returns — on the success path and on each of the
initialization failure paths — every successfully acquired resource has
been released before the return: the window and renderer are destroyed
by their deleters and `SDL_Quit` is called whenever `SDL_Init` succeeded. -/
theorem mainRun_releases_resources (io wo ro : Bool)
    (bs : List (List SDLEvent)) (code : Nat) (tr : List MainAction)
    (hret : mainRun io wo ro bs = (some code, tr)) :
    (io = true ∧ wo = true → MainAction.destroyWindow ∈ tr) ∧
      (io = true ∧ wo = true ∧ ro = true → MainAction.destroyRenderer ∈ tr) ∧
      (io = true → MainAction.sdlQuitCall ∈ tr) := by
  cases io with
  | false =>
    refine ⟨?_, ?_, ?_⟩
    · rintro ⟨h, -⟩; cases h
    · rintro ⟨h, -⟩; cases h
    · intro h; cases h
  | true =>
    cases wo with
    | false =>
      simp only [mainRun, Bool.not_true, Bool.false_eq_true, if_false,
        Bool.not_false, if_true] at hret
      injection hret with h1 h2
      refine ⟨?_, ?_, ?_⟩
      · rintro ⟨-, h⟩; cases h
      · rintro ⟨-, h, -⟩; cases h
      · intro _
        rw [← h2]
        simp [sdlWindowDeleterRun]
    | true =>
      cases ro with
      | false =>
        simp only [mainRun, Bool.not_true, Bool.false_eq_true, if_false,
          Bool.not_false, if_true] at hret
        injection hret with h1 h2
        refine ⟨?_, ?_, ?_⟩
        · intro _
          rw [← h2]
          simp [sdlWindowDeleterRun, sdlRendererDeleterRun]
        · rintro ⟨-, -, h⟩; cases h
        · intro _
          rw [← h2]
          simp [sdlWindowDeleterRun, sdlRendererDeleterRun]
      | true =>
        simp only [mainRun, Bool.not_true, Bool.false_eq_true, if_false] at hret
        rcases hml : mainLoop bs with ⟨oc, tr'⟩
        rw [hml] at hret
        cases oc with
        | none =>
          dsimp only at hret
          injection hret with h1 h2
          cases h1
        | some c =>
          dsimp only at hret
          injection hret with h1 h2
          refine ⟨?_, ?_, ?_⟩ <;> intro _ <;> rw [← h2] <;>
            simp [sdlWindowDeleterRun, sdlRendererDeleterRun]

/-- Witness for C10 at a concrete event sequence: one quit-free batch,
then a batch containing `SDL_QUIT` among other events. -/
theorem quit_renders_last_frame_witness :
    mainRun true true true
        [[SDLEvent.other 3], [SDLEvent.other 1, SDLEvent.quit],
          [SDLEvent.quit]] =
      (some EXIT_SUCCESS,
        repeatRender 2 ++
          [MainAction.sdlQuitCall, MainAction.destroyRenderer,
            MainAction.destroyWindow]) :=
  quit_renders_last_frame [[SDLEvent.other 3]]
    [SDLEvent.other 1, SDLEvent.quit] [[SDLEvent.quit]]
    (by decide) (by decide)

/-- Witness for C3 at a concrete run: all initialization succeeds and the
loop exits on a quit event; window, renderer and SDL are all released. -/
theorem mainRun_releases_resources_witness :
    MainAction.destroyWindow ∈ (mainRun true true true [[SDLEvent.quit]]).2 ∧
      MainAction.destroyRenderer ∈ (mainRun true true true [[SDLEvent.quit]]).2 ∧
      MainAction.sdlQuitCall ∈ (mainRun true true true [[SDLEvent.quit]]).2 := by
  have h := mainRun_releases_resources true true true [[SDLEvent.quit]]
    EXIT_SUCCESS (mainRun true true true [[SDLEvent.quit]]).2 (by decide)
  exact ⟨h.1 ⟨rfl, rfl⟩, h.2.1 ⟨rfl, rfl, rfl⟩, h.2.2 rfl⟩

/-! ### Part 2: the rasterization core, modelled from the specification

The repository contains no rasterizer code (`main.cpp` only marks its
future location), so the definitions below are modelled from the
specification's words (spec sections 3, 4.1, 4.3, 4.4, 4.5, 7):
screen-space coordinates are integers (pixel centers at integer points),
depth and interpolated attributes are exact rationals (the spec's
floating-point values, modelled exactly). -/

/-- Modelled from the spec: a screen-space point, integer pixel
coordinates (spec section 3, "Fragment: integer (x,y)"). -/
structure Point where
  x : Int
  y : Int
deriving DecidableEq, Repr

/-- Modelled from the spec: an interpolatable color with 4 components
(spec section 3, "optional color (4 components)"). -/
structure Color where
  r : ℚ
  g : ℚ
  b : ℚ
  a : ℚ
deriving DecidableEq, Repr

/-- Modelled from the spec: a screen-space vertex with per-vertex depth
and color attribute (spec section 4.3, "three 2D points with per-vertex
depth and attributes"). -/
structure Vertex where
  pos : Point
  depth : ℚ
  color : Color
deriving DecidableEq, Repr

/-- Modelled from the spec: a Fragment — "a candidate pixel produced
during rasterization — integer (x,y), interpolated depth, interpolated
attributes" (spec section 3). -/
structure Fragment where
  x : Int
  y : Int
  depth : ℚ
  color : Color
deriving DecidableEq, Repr

/-- Modelled from the spec: the edge function of the directed edge
`a → b` evaluated at `p` (spec section 4.3, "edge functions"). -/
def edgeFn (a b p : Point) : Int :=
  (b.x - a.x) * (p.y - a.y) - (b.y - a.y) * (p.x - a.x)

/-- Modelled from the spec: twice the signed area of triangle
`(v0, v1, v2)` (spec section 4.3, "signed area"); positive for the
winding the rasterizer accepts (y grows downward on screen). -/
def orient2d (v0 v1 v2 : Point) : Int :=
  edgeFn v0 v1 v2

/-- Modelled from the spec: the top-left classification of directed edge
`a → b` of a positively-oriented triangle — a "top" edge is horizontal
with the interior below it, a "left" edge goes upward on screen
(spec section 4.3, "treating top and left edges as inclusive"). -/
def isTopLeft (a b : Point) : Prop :=
  (a.y = b.y ∧ a.x < b.x) ∨ b.y < a.y

instance (a b : Point) : Decidable (isTopLeft a b) := by
  unfold isTopLeft
  infer_instance

/-- Modelled from the spec: the per-edge inclusion test of the top-left
rule — strictly positive edge function, or zero on a top or left edge
(spec section 4.3, "a pixel is inside if the edge functions are
non-negative, with ties broken ... by treating top and left edges as
inclusive and others as exclusive"). -/
def edgeCond (a b p : Point) : Prop :=
  0 < edgeFn a b p ∨ (edgeFn a b p = 0 ∧ isTopLeft a b)

instance (a b p : Point) : Decidable (edgeCond a b p) := by
  unfold edgeCond
  infer_instance

/-- Modelled from the spec: pixel-center inclusion in a screen-space
triangle under the top-left rule (spec section 4.3). -/
def insideTri (v0 v1 v2 p : Point) : Prop :=
  edgeCond v0 v1 p ∧ edgeCond v1 v2 p ∧ edgeCond v2 v0 p

instance (v0 v1 v2 p : Point) : Decidable (insideTri v0 v1 v2 p) := by
  unfold insideTri
  infer_instance

/-- The integers from `lo` to `hi` inclusive, in increasing order. -/
def rangeInt (lo hi : Int) : List Int :=
  (List.range (hi + 1 - lo).toNat).map (fun i : Nat => lo + (i : Int))

/-- Modelled from the spec: the pixels of the triangle's screen-space
bounding box, in row-major order (spec section 4.3, "bounded by
triangle's screen-space bounding box"). -/
def bboxPixels (v0 v1 v2 : Point) : List Point :=
  (rangeInt (min (min v0.y v1.y) v2.y) (max (max v0.y v1.y) v2.y)).flatMap
    (fun y =>
      (rangeInt (min (min v0.x v1.x) v2.x) (max (max v0.x v1.x) v2.x)).map
        (fun x => Point.mk x y))

/-- Modelled from the spec: the fragment emitted for covered pixel `p` —
"barycentric weights are computed from the three edge functions and used
to linearly interpolate depth and attributes" (spec section 4.3). -/
def mkFragment (v0 v1 v2 : Vertex) (p : Point) : Fragment :=
  let w0 : ℚ := (edgeFn v1.pos v2.pos p : Int)
  let w1 : ℚ := (edgeFn v2.pos v0.pos p : Int)
  let w2 : ℚ := (edgeFn v0.pos v1.pos p : Int)
  let area : ℚ := (orient2d v0.pos v1.pos v2.pos : Int)
  { x := p.x
    y := p.y
    depth := (w0 * v0.depth + w1 * v1.depth + w2 * v2.depth) / area
    color :=
      { r := (w0 * v0.color.r + w1 * v1.color.r + w2 * v2.color.r) / area
        g := (w0 * v0.color.g + w1 * v1.color.g + w2 * v2.color.g) / area
        b := (w0 * v0.color.b + w1 * v1.color.b + w2 * v2.color.b) / area
        a := (w0 * v0.color.a + w1 * v1.color.a + w2 * v2.color.a) / area } }

/-- Modelled from the spec: the Rasterizer Core for triangles (spec
section 4.3) — the fragment sequence covering "exactly the pixels whose
center lies inside the triangle under a fixed, deterministic inclusion
rule (top-left rule)", traversed over the screen-space bounding box in
row-major order.  Triangles of zero signed area are degenerate and
produce the empty sequence (spec section 7); negatively-oriented
triangles are likewise rejected (backface orientation, spec section 8). -/
def rasterizeTriangle (v0 v1 v2 : Vertex) : List Fragment :=
  if 0 < orient2d v0.pos v1.pos v2.pos then
    (bboxPixels v0.pos v1.pos v2.pos).filterMap
      (fun p =>
        if insideTri v0.pos v1.pos v2.pos p then
          some (mkFragment v0 v1 v2 p)
        else
          none)
  else
    []

/-- Modelled from the spec: the Framebuffer — "two parallel planes —
color (fixed width×height, one color value per pixel) and depth (same
dimensions, one floating-point value per pixel)" (spec section 3),
stored row-major (spec section 6). -/
structure Framebuffer where
  width : Int
  height : Int
  colorPlane : List Color
  depthPlane : List ℚ
deriving DecidableEq, Repr

/-- Modelled from the spec: the single error kind of the core,
`InvalidDimensions` (spec section 7). -/
inductive RasterError where
  | invalidDimensions : RasterError
deriving DecidableEq, Repr

/-- Row-major index of pixel `(x, y)`. -/
def Framebuffer.idx (fb : Framebuffer) (x y : Int) : Nat :=
  (y * fb.width + x).toNat

/-- Modelled from the spec: the bounds check of `setPixel` / `setDepth`
(spec section 4.1, "bounds-checked; out-of-range coordinates are
silently ignored"). -/
def Framebuffer.inBounds (fb : Framebuffer) (x y : Int) : Prop :=
  0 ≤ x ∧ x < fb.width ∧ 0 ≤ y ∧ y < fb.height

instance (fb : Framebuffer) (x y : Int) : Decidable (fb.inBounds x y) := by
  unfold Framebuffer.inBounds
  infer_instance

/-- The color stored at pixel `(x, y)`. -/
def Framebuffer.colorAt (fb : Framebuffer) (x y : Int) : Color :=
  (fb.colorPlane[fb.idx x y]?).getD (Color.mk 0 0 0 0)

/-- The depth stored at pixel `(x, y)`. -/
def Framebuffer.depthAt (fb : Framebuffer) (x y : Int) : ℚ :=
  (fb.depthPlane[fb.idx x y]?).getD 0

/-- Modelled from the spec: `setPixel(x,y,color)` — bounds-checked,
out-of-range writes silently ignored (spec section 4.1). -/
def Framebuffer.setPixel (fb : Framebuffer) (x y : Int) (c : Color) :
    Framebuffer :=
  if fb.inBounds x y then
    { fb with colorPlane := fb.colorPlane.set (fb.idx x y) c }
  else
    fb

/-- Modelled from the spec: `setDepth(x,y,value)` — bounds-checked,
out-of-range writes silently ignored (spec section 4.1). -/
def Framebuffer.setDepth (fb : Framebuffer) (x y : Int) (d : ℚ) :
    Framebuffer :=
  if fb.inBounds x y then
    { fb with depthPlane := fb.depthPlane.set (fb.idx x y) d }
  else
    fb

/-- Writing one fragment's color and depth into the framebuffer —
the combined effect of `setPixel` and `setDepth` at the fragment's
pixel, bounds-checked, out-of-range writes silently ignored (spec
section 4.1). -/
def writeFragment (fb : Framebuffer) (f : Fragment) : Framebuffer :=
  if fb.inBounds f.x f.y then
    { fb with
        colorPlane := fb.colorPlane.set (fb.idx f.x f.y) f.color
        depthPlane := fb.depthPlane.set (fb.idx f.x f.y) f.depth }
  else
    fb

/-- Modelled from the spec: the Depth/Visibility Test applied to one
fragment (spec section 4.4): with depth-test enabled, "closer wins"
(strictly lower depth passes); on pass write color and update depth, on
fail discard the fragment with no side effect; with depth-test disabled,
always write. -/
def applyFragment : Bool → Framebuffer → Fragment → Framebuffer
  | true, fb, f =>
    if f.depth < fb.depthAt f.x f.y then writeFragment fb f else fb
  | false, fb, f => writeFragment fb f

/-- Modelled from the spec: `submit` for one screen-space triangle (spec
section 4.5) — rasterize it and run every fragment through the depth
test into the framebuffer, in fragment order. -/
def submitTri (depthTestOn : Bool) (fb : Framebuffer)
    (v0 v1 v2 : Vertex) : Framebuffer :=
  (rasterizeTriangle v0 v1 v2).foldl (applyFragment depthTestOn) fb

/-- Modelled from the spec: `resize(width, height)` — "reallocates both
planes, invalid for width≤0 or height≤0 (fails with InvalidDimensions)",
in which case "the framebuffer retains previous valid dimensions" (spec
sections 4.1 and 7).  New planes are allocated cleared to transparent
black and the far-depth sentinel 1. -/
def Framebuffer.resize (fb : Framebuffer) (w h : Int) :
    Framebuffer × Option RasterError :=
  if w ≤ 0 ∨ h ≤ 0 then
    (fb, some RasterError.invalidDimensions)
  else
    ({ width := w
       height := h
       colorPlane := List.replicate (w * h).toNat (Color.mk 0 0 0 0)
       depthPlane := List.replicate (w * h).toNat 1 }, none)

/-- Modelled from the spec: the Framebuffer invariant — "dimensions of
color and depth planes are always equal" (spec section 3): both planes
hold one entry per pixel of the width×height grid. -/
def Framebuffer.wellFormed (fb : Framebuffer) : Prop :=
  fb.colorPlane.length = (fb.width * fb.height).toNat ∧
    fb.depthPlane.length = (fb.width * fb.height).toNat

instance (fb : Framebuffer) : Decidable fb.wellFormed := by
  unfold Framebuffer.wellFormed
  infer_instance

/-! ### Helper lemmas about the rasterizer geometry -/

theorem rangeInt_mem (lo hi x : Int) : x ∈ rangeInt lo hi ↔ lo ≤ x ∧ x ≤ hi := by
  unfold rangeInt
  constructor
  · intro hx
    rcases List.mem_map.mp hx with ⟨i, hilt, rfl⟩
    rw [List.mem_range] at hilt
    omega
  · rintro ⟨h1, h2⟩
    exact List.mem_map.mpr
      ⟨(x - lo).toNat, List.mem_range.mpr (by omega), by omega⟩

theorem bboxPixels_mem (v0 v1 v2 p : Point) :
    p ∈ bboxPixels v0 v1 v2 ↔
      (min (min v0.x v1.x) v2.x ≤ p.x ∧ p.x ≤ max (max v0.x v1.x) v2.x ∧
        min (min v0.y v1.y) v2.y ≤ p.y ∧ p.y ≤ max (max v0.y v1.y) v2.y) := by
  unfold bboxPixels
  simp only [List.mem_flatMap, List.mem_map]
  constructor
  · rintro ⟨y, hy, x, hx, rfl⟩
    rw [rangeInt_mem] at hy hx
    exact ⟨hx.1, hx.2, hy.1, hy.2⟩
  · rintro ⟨h1, h2, h3, h4⟩
    exact ⟨p.y, (rangeInt_mem _ _ _).mpr ⟨h3, h4⟩,
      p.x, (rangeInt_mem _ _ _).mpr ⟨h1, h2⟩, rfl⟩

/-- The three edge functions sum to twice the signed area. -/
theorem edgeFn_sum (v0 v1 v2 p : Point) :
    edgeFn v1 v2 p + edgeFn v2 v0 p + edgeFn v0 v1 p = orient2d v0 v1 v2 := by
  simp only [orient2d, edgeFn]
  ring

/-- Barycentric identity for the x coordinate. -/
theorem bary_x (v0 v1 v2 p : Point) :
    edgeFn v1 v2 p * v0.x + edgeFn v2 v0 p * v1.x + edgeFn v0 v1 p * v2.x =
      orient2d v0 v1 v2 * p.x := by
  simp only [orient2d, edgeFn]
  ring

/-- Barycentric identity for the y coordinate. -/
theorem bary_y (v0 v1 v2 p : Point) :
    edgeFn v1 v2 p * v0.y + edgeFn v2 v0 p * v1.y + edgeFn v0 v1 p * v2.y =
      orient2d v0 v1 v2 * p.y := by
  simp only [orient2d, edgeFn]
  ring

theorem edgeCond_nonneg {a b p : Point} (h : edgeCond a b p) :
    0 ≤ edgeFn a b p := by
  rcases h with h | ⟨h, -⟩
  · exact le_of_lt h
  · exact le_of_eq h.symm

/-- A convex-combination bound: if three nonnegative weights summing to a
positive total combine three values into `t * c`, then `c` lies between
the least and the greatest of the values. -/
theorem convex_bound {w0 w1 w2 x0 x1 x2 c t : Int}
    (h0 : 0 ≤ w0) (h1 : 0 ≤ w1) (h2 : 0 ≤ w2)
    (hsum : w0 + w1 + w2 = t) (ht : 0 < t)
    (hcomb : w0 * x0 + w1 * x1 + w2 * x2 = t * c) :
    min (min x0 x1) x2 ≤ c ∧ c ≤ max (max x0 x1) x2 := by
  constructor
  · set m := min (min x0 x1) x2 with hm
    have hm0 : m ≤ x0 := le_trans (min_le_left _ _) (min_le_left _ _)
    have hm1 : m ≤ x1 := le_trans (min_le_left _ _) (min_le_right _ _)
    have hm2 : m ≤ x2 := min_le_right _ _
    have hexp : t * m = w0 * m + w1 * m + w2 * m := by rw [← hsum]; ring
    have hchain : t * m ≤ t * c := by
      rw [hexp, ← hcomb]
      have := mul_le_mul_of_nonneg_left hm0 h0
      have := mul_le_mul_of_nonneg_left hm1 h1
      have := mul_le_mul_of_nonneg_left hm2 h2
      linarith
    exact le_of_mul_le_mul_left hchain ht
  · set M := max (max x0 x1) x2 with hM
    have hM0 : x0 ≤ M := le_trans (le_max_left _ _) (le_max_left _ _)
    have hM1 : x1 ≤ M := le_trans (le_max_right _ _) (le_max_left _ _)
    have hM2 : x2 ≤ M := le_max_right _ _
    have hexp : t * M = w0 * M + w1 * M + w2 * M := by rw [← hsum]; ring
    have hchain : t * c ≤ t * M := by
      rw [hexp, ← hcomb]
      have := mul_le_mul_of_nonneg_left hM0 h0
      have := mul_le_mul_of_nonneg_left hM1 h1
      have := mul_le_mul_of_nonneg_left hM2 h2
      linarith
    exact le_of_mul_le_mul_left hchain ht

/-- A pixel inside a positively-oriented triangle lies in its
screen-space bounding box. -/
theorem insideTri_mem_bbox {v0 v1 v2 p : Point}
    (harea : 0 < orient2d v0 v1 v2) (h : insideTri v0 v1 v2 p) :
    p ∈ bboxPixels v0 v1 v2 := by
  obtain ⟨h01, h12, h20⟩ := h
  have w0 := edgeCond_nonneg h12
  have w1 := edgeCond_nonneg h20
  have w2 := edgeCond_nonneg h01
  have hx := convex_bound w0 w1 w2 (edgeFn_sum v0 v1 v2 p) harea
    (bary_x v0 v1 v2 p)
  have hy := convex_bound w0 w1 w2 (edgeFn_sum v0 v1 v2 p) harea
    (bary_y v0 v1 v2 p)
  exact (bboxPixels_mem v0 v1 v2 p).mpr ⟨hx.1, hx.2, hy.1, hy.2⟩

/-- Characterization of the fragments a triangle produces: exactly one
per pixel center inside it (top-left rule), with the barycentrically
interpolated values, and only when the triangle is positively oriented. -/
theorem rasterizeTriangle_mem (v0 v1 v2 : Vertex) (f : Fragment) :
    f ∈ rasterizeTriangle v0 v1 v2 ↔
      0 < orient2d v0.pos v1.pos v2.pos ∧
        insideTri v0.pos v1.pos v2.pos (Point.mk f.x f.y) ∧
        f = mkFragment v0 v1 v2 (Point.mk f.x f.y) := by
  unfold rasterizeTriangle
  by_cases harea : 0 < orient2d v0.pos v1.pos v2.pos
  · rw [if_pos harea]
    simp only [List.mem_filterMap]
    rw [iff_true_intro harea, true_and]
    constructor
    · rintro ⟨p, hp, hf⟩
      by_cases hin : insideTri v0.pos v1.pos v2.pos p
      · rw [if_pos hin] at hf
        have hfp : f = mkFragment v0 v1 v2 p := (Option.some_inj.mp hf).symm
        have hpx : p = Point.mk f.x f.y := by
          rw [hfp]
          rfl
        rw [← hpx]
        exact ⟨hin, hfp⟩
      · rw [if_neg hin] at hf
        cases hf
    · rintro ⟨hin, hf⟩
      refine ⟨Point.mk f.x f.y, insideTri_mem_bbox harea hin, ?_⟩
      rw [if_pos hin, ← hf]
  · rw [if_neg harea]
    simp only [List.not_mem_nil, false_iff]
    intro h
    exact harea h.1

/-- `writeFragment` is `setPixel` followed by `setDepth` at the
fragment's pixel. -/
theorem writeFragment_eq (fb : Framebuffer) (f : Fragment) :
    writeFragment fb f =
      (fb.setPixel f.x f.y f.color).setDepth f.x f.y f.depth := by
  unfold writeFragment Framebuffer.setPixel Framebuffer.setDepth
  split_ifs with h1 h2
  · rfl
  · exact absurd h1 h2
  · rfl

/-- Reversing a directed edge negates its edge function. -/
theorem edgeFn_rev (a b p : Point) : edgeFn b a p = - edgeFn a b p := by
  simp only [edgeFn]
  ring

/-- An edge and its reverse are never both top-left. -/
theorem isTopLeft_asymm {a b : Point} (h1 : isTopLeft a b)
    (h2 : isTopLeft b a) : False := by
  unfold isTopLeft at h1 h2
  omega

/-- The endpoints of an edge of a non-degenerate triangle differ. -/
theorem orient2d_pos_ne {a b c : Point} (h : 0 < orient2d a b c) :
    a.x ≠ b.x ∨ a.y ≠ b.y := by
  by_contra hcon
  push_neg at hcon
  have hz : orient2d a b c = 0 := by
    simp only [orient2d, edgeFn]
    rw [hcon.1, hcon.2]
    ring
  omega

/-- Of an edge and its reverse (distinct endpoints), exactly one side is
top-left; this is the totality half. -/
theorem isTopLeft_total {a b : Point} (hne : a.x ≠ b.x ∨ a.y ≠ b.y) :
    isTopLeft a b ∨ isTopLeft b a := by
  unfold isTopLeft
  omega

/-- A triangle's fragment set covers pixel `p`. -/
def coveredBy (v0 v1 v2 : Vertex) (p : Point) : Prop :=
  ∃ f ∈ rasterizeTriangle v0 v1 v2, f.x = p.x ∧ f.y = p.y

instance (v0 v1 v2 : Vertex) (p : Point) :
    Decidable (coveredBy v0 v1 v2 p) := by
  unfold coveredBy
  infer_instance

/-- A pixel is covered exactly when the triangle is positively oriented
and the pixel center passes the top-left inclusion rule. -/
theorem coveredBy_iff (v0 v1 v2 : Vertex) (p : Point) :
    coveredBy v0 v1 v2 p ↔
      0 < orient2d v0.pos v1.pos v2.pos ∧
        insideTri v0.pos v1.pos v2.pos p := by
  constructor
  · rintro ⟨f, hf, hx, hy⟩
    rcases (rasterizeTriangle_mem _ _ _ _).mp hf with ⟨ha, hin, -⟩
    rw [hx, hy] at hin
    exact ⟨ha, hin⟩
  · rintro ⟨ha, hin⟩
    exact ⟨mkFragment v0 v1 v2 p,
      (rasterizeTriangle_mem _ _ _ _).mpr ⟨ha, hin, rfl⟩, rfl, rfl⟩

/-- C4: two positively-oriented triangles sharing the edge `a-b`
(traversed in opposite directions) cover each pixel center on that edge
exactly once — never both, and, for pixels within the extent of both
triangles' remaining edges, never neither. -/
theorem shared_edge_exactly_once (va vb vc vd : Vertex) (p : Point)
    (h1 : 0 < orient2d va.pos vb.pos vc.pos)
    (h2 : 0 < orient2d vb.pos va.pos vd.pos)
    (hedge : edgeFn va.pos vb.pos p = 0) :
    ¬ (coveredBy va vb vc p ∧ coveredBy vb va vd p) ∧
      (edgeCond vb.pos vc.pos p → edgeCond vc.pos va.pos p →
        edgeCond va.pos vd.pos p → edgeCond vd.pos vb.pos p →
        (coveredBy va vb vc p ∨ coveredBy vb va vd p)) := by
  have hedge' : edgeFn vb.pos va.pos p = 0 := by
    rw [edgeFn_rev, hedge, neg_zero]
  constructor
  · rintro ⟨hcov1, hcov2⟩
    have hin1 := ((coveredBy_iff _ _ _ _).mp hcov1).2.1
    have hin2 := ((coveredBy_iff _ _ _ _).mp hcov2).2.1
    have htl1 : isTopLeft va.pos vb.pos := by
      rcases hin1 with hlt | ⟨-, htl⟩
      · rw [hedge] at hlt
        exact absurd hlt (lt_irrefl 0)
      · exact htl
    have htl2 : isTopLeft vb.pos va.pos := by
      rcases hin2 with hlt | ⟨-, htl⟩
      · rw [hedge'] at hlt
        exact absurd hlt (lt_irrefl 0)
      · exact htl
    exact isTopLeft_asymm htl1 htl2
  · intro hbc hca had hdb
    rcases isTopLeft_total (orient2d_pos_ne h1) with htl | htl
    · exact Or.inl ((coveredBy_iff _ _ _ _).mpr
        ⟨h1, Or.inr ⟨hedge, htl⟩, hbc, hca⟩)
    · exact Or.inr ((coveredBy_iff _ _ _ _).mpr
        ⟨h2, Or.inr ⟨hedge', htl⟩, had, hdb⟩)

/-- Witness for C4: triangles `(0,0),(4,0),(0,4)` and `(4,0),(0,0),(0,-4)`
share the edge from `(0,0)` to `(4,0)`; the pixel `(2,0)` on that edge is
covered exactly once. -/
theorem shared_edge_exactly_once_witness :
    ¬ (coveredBy (Vertex.mk (Point.mk 0 0) 0 (Color.mk 1 0 0 1))
          (Vertex.mk (Point.mk 4 0) 0 (Color.mk 1 0 0 1))
          (Vertex.mk (Point.mk 0 4) 0 (Color.mk 1 0 0 1)) (Point.mk 2 0) ∧
        coveredBy (Vertex.mk (Point.mk 4 0) 0 (Color.mk 1 0 0 1))
          (Vertex.mk (Point.mk 0 0) 0 (Color.mk 1 0 0 1))
          (Vertex.mk (Point.mk 0 (-4)) 0 (Color.mk 1 0 0 1)) (Point.mk 2 0)) ∧
      (coveredBy (Vertex.mk (Point.mk 0 0) 0 (Color.mk 1 0 0 1))
          (Vertex.mk (Point.mk 4 0) 0 (Color.mk 1 0 0 1))
          (Vertex.mk (Point.mk 0 4) 0 (Color.mk 1 0 0 1)) (Point.mk 2 0) ∨
        coveredBy (Vertex.mk (Point.mk 4 0) 0 (Color.mk 1 0 0 1))
          (Vertex.mk (Point.mk 0 0) 0 (Color.mk 1 0 0 1))
          (Vertex.mk (Point.mk 0 (-4)) 0 (Color.mk 1 0 0 1)) (Point.mk 2 0)) := by
  have h := shared_edge_exactly_once
    (Vertex.mk (Point.mk 0 0) 0 (Color.mk 1 0 0 1))
    (Vertex.mk (Point.mk 4 0) 0 (Color.mk 1 0 0 1))
    (Vertex.mk (Point.mk 0 4) 0 (Color.mk 1 0 0 1))
    (Vertex.mk (Point.mk 0 (-4)) 0 (Color.mk 1 0 0 1))
    (Point.mk 2 0) (by decide) (by decide) (by decide)
  exact ⟨h.1, h.2 (by decide) (by decide) (by decide) (by decide)⟩

/-- C5: the rasterizer core is deterministic — it is a pure function, so
identical inputs give the identical (finite) fragment list, in the same
order with the same interpolated values — and every fragment it emits
lies within the triangle's screen-space bounding box. -/
theorem rasterize_deterministic_bounded (v0 v1 v2 : Vertex) :
    rasterizeTriangle v0 v1 v2 = rasterizeTriangle v0 v1 v2 ∧
      ∀ f ∈ rasterizeTriangle v0 v1 v2,
        min (min v0.pos.x v1.pos.x) v2.pos.x ≤ f.x ∧
          f.x ≤ max (max v0.pos.x v1.pos.x) v2.pos.x ∧
          min (min v0.pos.y v1.pos.y) v2.pos.y ≤ f.y ∧
          f.y ≤ max (max v0.pos.y v1.pos.y) v2.pos.y := by
  refine ⟨rfl, fun f hf => ?_⟩
  rcases (rasterizeTriangle_mem _ _ _ _).mp hf with ⟨ha, hin, -⟩
  have hmem := insideTri_mem_bbox ha hin
  exact (bboxPixels_mem _ _ _ _).mp hmem

/-- Witness for C5 at a concrete triangle and fragment: the fragment at
pixel `(1,0)` of triangle `(0,0),(2,0),(0,2)` lies in the bounding box. -/
theorem rasterize_deterministic_bounded_witness :
    min (min 0 2) 0 ≤
        (mkFragment (Vertex.mk (Point.mk 0 0) 0 (Color.mk 1 0 0 1))
          (Vertex.mk (Point.mk 2 0) 0 (Color.mk 1 0 0 1))
          (Vertex.mk (Point.mk 0 2) 0 (Color.mk 1 0 0 1))
          (Point.mk 1 0)).x ∧
      (mkFragment (Vertex.mk (Point.mk 0 0) 0 (Color.mk 1 0 0 1))
          (Vertex.mk (Point.mk 2 0) 0 (Color.mk 1 0 0 1))
          (Vertex.mk (Point.mk 0 2) 0 (Color.mk 1 0 0 1))
          (Point.mk 1 0)).x ≤ max (max 0 2) 0 ∧
      min (min 0 0) 2 ≤
        (mkFragment (Vertex.mk (Point.mk 0 0) 0 (Color.mk 1 0 0 1))
          (Vertex.mk (Point.mk 2 0) 0 (Color.mk 1 0 0 1))
          (Vertex.mk (Point.mk 0 2) 0 (Color.mk 1 0 0 1))
          (Point.mk 1 0)).y ∧
      (mkFragment (Vertex.mk (Point.mk 0 0) 0 (Color.mk 1 0 0 1))
          (Vertex.mk (Point.mk 2 0) 0 (Color.mk 1 0 0 1))
          (Vertex.mk (Point.mk 0 2) 0 (Color.mk 1 0 0 1))
          (Point.mk 1 0)).y ≤ max (max 0 0) 2 :=
  (rasterize_deterministic_bounded
    (Vertex.mk (Point.mk 0 0) 0 (Color.mk 1 0 0 1))
    (Vertex.mk (Point.mk 2 0) 0 (Color.mk 1 0 0 1))
    (Vertex.mk (Point.mk 0 2) 0 (Color.mk 1 0 0 1))).2
    _ ((rasterizeTriangle_mem _ _ _ _).mpr ⟨by decide, by decide, rfl⟩)

/-- C8: a degenerate triangle (zero signed area — coincident or colinear
vertices) produces the empty fragment sequence, writes zero pixels when
submitted, and raises no error. -/
theorem degenerate_produces_nothing (v0 v1 v2 : Vertex)
    (h : orient2d v0.pos v1.pos v2.pos = 0) :
    rasterizeTriangle v0 v1 v2 = [] ∧
      ∀ (dt : Bool) (fb : Framebuffer), submitTri dt fb v0 v1 v2 = fb := by
  have hr : rasterizeTriangle v0 v1 v2 = [] := by
    unfold rasterizeTriangle
    rw [if_neg (by omega)]
  refine ⟨hr, fun dt fb => ?_⟩
  unfold submitTri
  rw [hr]
  rfl

/-- Witness for C8 at a concrete colinear triangle
`(0,0),(1,1),(2,2)` and a concrete 1×1 framebuffer. -/
theorem degenerate_produces_nothing_witness :
    rasterizeTriangle (Vertex.mk (Point.mk 0 0) 0 (Color.mk 1 0 0 1))
        (Vertex.mk (Point.mk 1 1) 0 (Color.mk 1 0 0 1))
        (Vertex.mk (Point.mk 2 2) 0 (Color.mk 1 0 0 1)) = [] ∧
      submitTri true
          (Framebuffer.mk 1 1 [Color.mk 0 0 0 0] [1])
          (Vertex.mk (Point.mk 0 0) 0 (Color.mk 1 0 0 1))
          (Vertex.mk (Point.mk 1 1) 0 (Color.mk 1 0 0 1))
          (Vertex.mk (Point.mk 2 2) 0 (Color.mk 1 0 0 1)) =
        Framebuffer.mk 1 1 [Color.mk 0 0 0 0] [1] := by
  have h := degenerate_produces_nothing
    (Vertex.mk (Point.mk 0 0) 0 (Color.mk 1 0 0 1))
    (Vertex.mk (Point.mk 1 1) 0 (Color.mk 1 0 0 1))
    (Vertex.mk (Point.mk 2 2) 0 (Color.mk 1 0 0 1)) (by decide)
  exact ⟨h.1, h.2 true (Framebuffer.mk 1 1 [Color.mk 0 0 0 0] [1])⟩

/-- C9: `resize` with non-positive width or height fails with
`InvalidDimensions` and returns the framebuffer unchanged — it keeps its
previous dimensions and planes (atomic failure) — while a valid resize
succeeds with the new dimensions; in both cases the invariant that the
color and depth planes have equal dimensions is preserved. -/
theorem resize_invalid_dimensions (fb : Framebuffer) (w h : Int) :
    (w ≤ 0 ∨ h ≤ 0 →
        fb.resize w h = (fb, some RasterError.invalidDimensions)) ∧
      (0 < w → 0 < h →
        (fb.resize w h).2 = none ∧ (fb.resize w h).1.width = w ∧
          (fb.resize w h).1.height = h) ∧
      (fb.wellFormed → (fb.resize w h).1.wellFormed) := by
  refine ⟨?_, ?_, ?_⟩
  · intro hbad
    unfold Framebuffer.resize
    rw [if_pos hbad]
  · intro hw hh
    unfold Framebuffer.resize
    rw [if_neg (by omega)]
    exact ⟨rfl, rfl, rfl⟩
  · intro hwf
    unfold Framebuffer.resize
    by_cases hbad : w ≤ 0 ∨ h ≤ 0
    · rw [if_pos hbad]
      exact hwf
    · rw [if_neg hbad]
      constructor <;> simp [Framebuffer.wellFormed]

/-- Witness for C9: resizing a concrete 1×1 framebuffer to width 0 fails
with `InvalidDimensions` and leaves it unchanged, and the invariant is
preserved. -/
theorem resize_invalid_dimensions_witness :
    (Framebuffer.mk 1 1 [Color.mk 0 0 0 0] [1]).resize 0 5 =
        (Framebuffer.mk 1 1 [Color.mk 0 0 0 0] [1],
          some RasterError.invalidDimensions) ∧
      ((Framebuffer.mk 1 1 [Color.mk 0 0 0 0] [1]).resize 0 5).1.wellFormed := by
  have h := resize_invalid_dimensions
    (Framebuffer.mk 1 1 [Color.mk 0 0 0 0] [1]) 0 5
  exact ⟨h.1 (by decide), h.2.2 (by decide)⟩

/-! ### Framebuffer access lemmas -/

theorem writeFragment_width (fb : Framebuffer) (f : Fragment) :
    (writeFragment fb f).width = fb.width := by
  unfold writeFragment
  split <;> rfl

theorem writeFragment_height (fb : Framebuffer) (f : Fragment) :
    (writeFragment fb f).height = fb.height := by
  unfold writeFragment
  split <;> rfl

theorem applyFragment_width (dt : Bool) (fb : Framebuffer) (f : Fragment) :
    (applyFragment dt fb f).width = fb.width := by
  cases dt with
  | false => exact writeFragment_width fb f
  | true =>
    simp only [applyFragment]
    split
    · exact writeFragment_width fb f
    · rfl

theorem applyFragment_height (dt : Bool) (fb : Framebuffer) (f : Fragment) :
    (applyFragment dt fb f).height = fb.height := by
  cases dt with
  | false => exact writeFragment_height fb f
  | true =>
    simp only [applyFragment]
    split
    · exact writeFragment_height fb f
    · rfl

theorem applyFragment_inBounds (dt : Bool) (fb : Framebuffer) (f : Fragment)
    (x y : Int) : (applyFragment dt fb f).inBounds x y ↔ fb.inBounds x y := by
  unfold Framebuffer.inBounds
  rw [applyFragment_width, applyFragment_height]

theorem writeFragment_wellFormed {fb : Framebuffer} (f : Fragment)
    (hwf : fb.wellFormed) : (writeFragment fb f).wellFormed := by
  unfold writeFragment
  split
  · exact ⟨by simp [List.length_set, hwf.1], by simp [List.length_set, hwf.2]⟩
  · exact hwf

theorem applyFragment_wellFormed {fb : Framebuffer} (dt : Bool) (f : Fragment)
    (hwf : fb.wellFormed) : (applyFragment dt fb f).wellFormed := by
  cases dt with
  | false => exact writeFragment_wellFormed f hwf
  | true =>
    simp only [applyFragment]
    split
    · exact writeFragment_wellFormed f hwf
    · exact hwf

theorem inBounds_width_pos {fb : Framebuffer} {x y : Int}
    (h : fb.inBounds x y) : 0 < fb.width :=
  lt_of_le_of_lt h.1 h.2.1

/-- The row-major index of an in-bounds pixel is within the pixel count. -/
theorem idx_lt_area {fb : Framebuffer} {x y : Int} (h : fb.inBounds x y) :
    fb.idx x y < (fb.width * fb.height).toNat := by
  obtain ⟨hx0, hxw, hy0, hyh⟩ := h
  have hw : 0 < fb.width := lt_of_le_of_lt hx0 hxw
  have h1 : y ≤ fb.height - 1 := by omega
  have h2 : y * fb.width ≤ (fb.height - 1) * fb.width :=
    mul_le_mul_of_nonneg_right h1 hw.le
  have h3 : (fb.height - 1) * fb.width = fb.height * fb.width - fb.width := by
    ring
  have hcomm : fb.height * fb.width = fb.width * fb.height := mul_comm _ _
  have h4 : y * fb.width + x < fb.width * fb.height := by linarith
  have h0 : 0 ≤ y * fb.width + x :=
    add_nonneg (mul_nonneg hy0 hw.le) hx0
  unfold Framebuffer.idx
  omega

/-- Row-major indexing is injective on in-bounds pixels. -/
theorem idx_inj {fb : Framebuffer} {x y x' y' : Int}
    (h : fb.inBounds x y) (h' : fb.inBounds x' y')
    (heq : fb.idx x y = fb.idx x' y') : x = x' ∧ y = y' := by
  obtain ⟨hx0, hxw, hy0, hyh⟩ := h
  obtain ⟨hx0', hxw', hy0', hyh'⟩ := h'
  have hw : 0 < fb.width := lt_of_le_of_lt hx0 hxw
  have e1 : 0 ≤ y * fb.width + x := add_nonneg (mul_nonneg hy0 hw.le) hx0
  have e2 : 0 ≤ y' * fb.width + x' := add_nonneg (mul_nonneg hy0' hw.le) hx0'
  unfold Framebuffer.idx at heq
  have heq' : y * fb.width + x = y' * fb.width + x' := by omega
  have hyy : y = y' := by
    rcases lt_trichotomy y y' with hlt | heq2 | hgt
    · exfalso
      have hle : y + 1 ≤ y' := hlt
      have hmul : (y + 1) * fb.width ≤ y' * fb.width :=
        mul_le_mul_of_nonneg_right hle hw.le
      have hexp : (y + 1) * fb.width = y * fb.width + fb.width := by ring
      linarith
    · exact heq2
    · exfalso
      have hle : y' + 1 ≤ y := hgt
      have hmul : (y' + 1) * fb.width ≤ y * fb.width :=
        mul_le_mul_of_nonneg_right hle hw.le
      have hexp : (y' + 1) * fb.width = y' * fb.width + fb.width := by ring
      linarith
  subst hyy
  exact ⟨by linarith, rfl⟩

theorem writeFragment_colorAt_self {fb : Framebuffer} {f : Fragment}
    (hwf : fb.wellFormed) (hin : fb.inBounds f.x f.y) :
    (writeFragment fb f).colorAt f.x f.y = f.color := by
  unfold writeFragment
  rw [if_pos hin]
  unfold Framebuffer.colorAt Framebuffer.idx
  rw [List.getElem?_set_self (by rw [hwf.1]; exact idx_lt_area hin)]
  rfl

theorem writeFragment_depthAt_self {fb : Framebuffer} {f : Fragment}
    (hwf : fb.wellFormed) (hin : fb.inBounds f.x f.y) :
    (writeFragment fb f).depthAt f.x f.y = f.depth := by
  unfold writeFragment
  rw [if_pos hin]
  unfold Framebuffer.depthAt Framebuffer.idx
  rw [List.getElem?_set_self (by rw [hwf.2]; exact idx_lt_area hin)]
  rfl

theorem writeFragment_colorAt_ne {fb : Framebuffer} {f : Fragment}
    {x y : Int} (hin : fb.inBounds x y) (hne : ¬ (f.x = x ∧ f.y = y)) :
    (writeFragment fb f).colorAt x y = fb.colorAt x y := by
  unfold writeFragment
  by_cases hf : fb.inBounds f.x f.y
  · rw [if_pos hf]
    have hidx : (f.y * fb.width + f.x).toNat ≠ (y * fb.width + x).toNat :=
      fun hc => hne (idx_inj hf hin hc)
    unfold Framebuffer.colorAt
    dsimp only [Framebuffer.idx]
    rw [List.getElem?_set_ne hidx]
  · rw [if_neg hf]

theorem writeFragment_depthAt_ne {fb : Framebuffer} {f : Fragment}
    {x y : Int} (hin : fb.inBounds x y) (hne : ¬ (f.x = x ∧ f.y = y)) :
    (writeFragment fb f).depthAt x y = fb.depthAt x y := by
  unfold writeFragment
  by_cases hf : fb.inBounds f.x f.y
  · rw [if_pos hf]
    have hidx : (f.y * fb.width + f.x).toNat ≠ (y * fb.width + x).toNat :=
      fun hc => hne (idx_inj hf hin hc)
    unfold Framebuffer.depthAt
    dsimp only [Framebuffer.idx]
    rw [List.getElem?_set_ne hidx]
  · rw [if_neg hf]

theorem applyFragment_colorAt_ne {fb : Framebuffer} (dt : Bool)
    {f : Fragment} {x y : Int} (hin : fb.inBounds x y)
    (hne : ¬ (f.x = x ∧ f.y = y)) :
    (applyFragment dt fb f).colorAt x y = fb.colorAt x y := by
  cases dt with
  | false => exact writeFragment_colorAt_ne hin hne
  | true =>
    simp only [applyFragment]
    split
    · exact writeFragment_colorAt_ne hin hne
    · rfl

theorem applyFragment_depthAt_ne {fb : Framebuffer} (dt : Bool)
    {f : Fragment} {x y : Int} (hin : fb.inBounds x y)
    (hne : ¬ (f.x = x ∧ f.y = y)) :
    (applyFragment dt fb f).depthAt x y = fb.depthAt x y := by
  cases dt with
  | false => exact writeFragment_depthAt_ne hin hne
  | true =>
    simp only [applyFragment]
    split
    · exact writeFragment_depthAt_ne hin hne
    · rfl

theorem applyFragment_oob {fb : Framebuffer} (dt : Bool) {f : Fragment}
    (hoob : ¬ fb.inBounds f.x f.y) : applyFragment dt fb f = fb := by
  have hw : writeFragment fb f = fb := by
    unfold writeFragment
    rw [if_neg hoob]
  cases dt with
  | false => exact hw
  | true =>
    simp only [applyFragment]
    split
    · exact hw
    · rfl

/-- Two writes to the same pixel collapse to the last one. -/
theorem writeFragment_same {fb : Framebuffer} {f1 f2 : Fragment}
    (hx : f1.x = f2.x) (hy : f1.y = f2.y) :
    writeFragment (writeFragment fb f1) f2 = writeFragment fb f2 := by
  by_cases h1 : fb.inBounds f1.x f1.y
  · have h2 : fb.inBounds f2.x f2.y := by rw [← hx, ← hy]; exact h1
    have hstep1 : writeFragment fb f1 =
        { fb with
            colorPlane := fb.colorPlane.set (fb.idx f1.x f1.y) f1.color
            depthPlane := fb.depthPlane.set (fb.idx f1.x f1.y) f1.depth } := by
      unfold writeFragment
      rw [if_pos h1]
    have hA : ({ fb with
        colorPlane := fb.colorPlane.set (fb.idx f1.x f1.y) f1.color
        depthPlane := fb.depthPlane.set (fb.idx f1.x f1.y) f1.depth } :
          Framebuffer).inBounds f2.x f2.y := h2
    have hidx : (f1.y * fb.width + f1.x).toNat =
        (f2.y * fb.width + f2.x).toNat := by rw [hx, hy]
    rw [hstep1]
    unfold writeFragment
    rw [if_pos hA, if_pos h2]
    dsimp only [Framebuffer.idx]
    rw [hidx, List.set_set, List.set_set]
  · have h2 : ¬ fb.inBounds f2.x f2.y := by rw [← hx, ← hy]; exact h1
    have hstep1 : writeFragment fb f1 = fb := by
      unfold writeFragment
      rw [if_neg h1]
    rw [hstep1]

/-- Writes to distinct pixels commute. -/
theorem writeFragment_comm {fb : Framebuffer} {f1 f2 : Fragment}
    (hb1 : fb.inBounds f1.x f1.y) (hb2 : fb.inBounds f2.x f2.y)
    (hne : ¬ (f1.x = f2.x ∧ f1.y = f2.y)) :
    writeFragment (writeFragment fb f1) f2 =
      writeFragment (writeFragment fb f2) f1 := by
  have hidx : (f1.y * fb.width + f1.x).toNat ≠
      (f2.y * fb.width + f2.x).toNat :=
    fun hc => hne (idx_inj hb1 hb2 hc)
  have hstep1 : writeFragment fb f1 =
      { fb with
          colorPlane := fb.colorPlane.set (fb.idx f1.x f1.y) f1.color
          depthPlane := fb.depthPlane.set (fb.idx f1.x f1.y) f1.depth } := by
    unfold writeFragment
    rw [if_pos hb1]
  have hstep2 : writeFragment fb f2 =
      { fb with
          colorPlane := fb.colorPlane.set (fb.idx f2.x f2.y) f2.color
          depthPlane := fb.depthPlane.set (fb.idx f2.x f2.y) f2.depth } := by
    unfold writeFragment
    rw [if_pos hb2]
  have hA : ({ fb with
      colorPlane := fb.colorPlane.set (fb.idx f1.x f1.y) f1.color
      depthPlane := fb.depthPlane.set (fb.idx f1.x f1.y) f1.depth } :
        Framebuffer).inBounds f2.x f2.y := hb2
  have hB : ({ fb with
      colorPlane := fb.colorPlane.set (fb.idx f2.x f2.y) f2.color
      depthPlane := fb.depthPlane.set (fb.idx f2.x f2.y) f2.depth } :
        Framebuffer).inBounds f1.x f1.y := hb1
  rw [hstep1, hstep2]
  unfold writeFragment
  rw [if_pos hA, if_pos hB]
  dsimp only [Framebuffer.idx]
  rw [List.set_comm _ _ _ hidx, List.set_comm _ _ _ hidx]

/-- The depth-tested application of two fragments commutes whenever they
touch different pixels or carry different depths. -/
theorem applyFragment_comm {fb : Framebuffer} (hwf : fb.wellFormed)
    (f1 f2 : Fragment)
    (hd : f1.x = f2.x → f1.y = f2.y → f1.depth ≠ f2.depth) :
    applyFragment true (applyFragment true fb f1) f2 =
      applyFragment true (applyFragment true fb f2) f1 := by
  by_cases hb1 : fb.inBounds f1.x f1.y
  case neg =>
    rw [applyFragment_oob true hb1, applyFragment_oob true
      (fun hc => hb1 ((applyFragment_inBounds true fb f2 f1.x f1.y).mp hc))]
  by_cases hb2 : fb.inBounds f2.x f2.y
  case neg =>
    rw [applyFragment_oob true hb2, applyFragment_oob true
      (fun hc => hb2 ((applyFragment_inBounds true fb f1 f2.x f2.y).mp hc))]
  by_cases hpix : f1.x = f2.x ∧ f1.y = f2.y
  · obtain ⟨hx, hy⟩ := hpix
    have hdepth : f1.depth ≠ f2.depth := hd hx hy
    have hw1 : (writeFragment fb f1).depthAt f2.x f2.y = f1.depth := by
      rw [← hx, ← hy]
      exact writeFragment_depthAt_self hwf hb1
    have hw2 : (writeFragment fb f2).depthAt f1.x f1.y = f2.depth := by
      rw [hx, hy]
      exact writeFragment_depthAt_self hwf hb2
    simp only [applyFragment]
    have hs2 : fb.depthAt f2.x f2.y = fb.depthAt f1.x f1.y := by
      rw [hx, hy]
    rw [hs2]
    by_cases hc1 : f1.depth < fb.depthAt f1.x f1.y <;>
      by_cases hc2 : f2.depth < fb.depthAt f1.x f1.y
    · rw [if_pos hc1, if_pos hc2, hw1, hw2]
      rcases lt_or_gt_of_ne hdepth with hlt | hgt
      · rw [if_neg (lt_asymm hlt), if_pos hlt]
        exact (writeFragment_same hx.symm hy.symm).symm
      · rw [if_pos hgt, if_neg (lt_asymm hgt)]
        exact writeFragment_same hx hy
    · rw [if_pos hc1, if_neg hc2, hw1,
        if_neg (fun hcon => hc2 (lt_trans hcon hc1)), if_pos hc1]
    · rw [if_neg hc1, if_pos hc2, hw2,
        if_neg (fun hcon => hc1 (lt_trans hcon hc2)), hs2, if_pos hc2]
    · rw [if_neg hc1, if_neg hc2, hs2, if_neg hc2, if_neg hc1]
  · have hne := hpix
    have hne' : ¬ (f2.x = f1.x ∧ f2.y = f1.y) :=
      fun hc => hne ⟨hc.1.symm, hc.2.symm⟩
    have hd1 : (writeFragment fb f1).depthAt f2.x f2.y =
        fb.depthAt f2.x f2.y := writeFragment_depthAt_ne hb2 hne
    have hd2 : (writeFragment fb f2).depthAt f1.x f1.y =
        fb.depthAt f1.x f1.y := writeFragment_depthAt_ne hb1 hne'
    simp only [applyFragment]
    by_cases hc1 : f1.depth < fb.depthAt f1.x f1.y <;>
      by_cases hc2 : f2.depth < fb.depthAt f2.x f2.y
    · rw [if_pos hc1, if_pos hc2, hd1, hd2, if_pos hc2, if_pos hc1]
      exact writeFragment_comm hb1 hb2 hne
    · rw [if_pos hc1, if_neg hc2, hd1, if_neg hc2, if_pos hc1]
    · rw [if_neg hc1, if_pos hc2, hd2, if_neg hc1]
    · rw [if_neg hc1, if_neg hc2, if_neg hc1]

theorem foldl_applyFragment_width (dt : Bool) (l : List Fragment)
    (fb : Framebuffer) :
    (List.foldl (applyFragment dt) fb l).width = fb.width := by
  induction l generalizing fb with
  | nil => rfl
  | cons g l ih =>
    simp only [List.foldl_cons]
    rw [ih, applyFragment_width]

theorem foldl_applyFragment_height (dt : Bool) (l : List Fragment)
    (fb : Framebuffer) :
    (List.foldl (applyFragment dt) fb l).height = fb.height := by
  induction l generalizing fb with
  | nil => rfl
  | cons g l ih =>
    simp only [List.foldl_cons]
    rw [ih, applyFragment_height]

theorem foldl_applyFragment_inBounds (dt : Bool) (l : List Fragment)
    (fb : Framebuffer) (x y : Int) :
    (List.foldl (applyFragment dt) fb l).inBounds x y ↔ fb.inBounds x y := by
  unfold Framebuffer.inBounds
  rw [foldl_applyFragment_width, foldl_applyFragment_height]

theorem foldl_applyFragment_wellFormed (dt : Bool) (l : List Fragment)
    {fb : Framebuffer} (hwf : fb.wellFormed) :
    (List.foldl (applyFragment dt) fb l).wellFormed := by
  induction l generalizing fb with
  | nil => exact hwf
  | cons g l ih =>
    simp only [List.foldl_cons]
    exact ih (applyFragment_wellFormed dt g hwf)

/-- A fragment whose depth differs from those of a whole list at shared
pixels can be moved across the list's fold. -/
theorem foldl_applyFragment_swap (l : List Fragment) (fb : Framebuffer)
    (g : Fragment) (hwf : fb.wellFormed)
    (h : ∀ f ∈ l, g.x = f.x → g.y = f.y → g.depth ≠ f.depth) :
    List.foldl (applyFragment true) (applyFragment true fb g) l =
      applyFragment true (List.foldl (applyFragment true) fb l) g := by
  induction l generalizing fb with
  | nil => rfl
  | cons f l ih =>
    simp only [List.foldl_cons]
    rw [applyFragment_comm hwf g f (h f (List.mem_cons_self _ _))]
    exact ih (applyFragment true fb f)
      (applyFragment_wellFormed true f hwf)
      (fun f' hf' => h f' (List.mem_cons_of_mem _ hf'))

/-- Folding two fragment lists in either order gives the same
framebuffer when fragments of the two lists never share a pixel with
equal depths. -/
theorem foldl_foldl_comm (l1 l2 : List Fragment) (fb : Framebuffer)
    (hwf : fb.wellFormed)
    (hpair : ∀ f1 ∈ l1, ∀ f2 ∈ l2,
      f1.x = f2.x → f1.y = f2.y → f1.depth ≠ f2.depth) :
    List.foldl (applyFragment true) (List.foldl (applyFragment true) fb l1) l2 =
      List.foldl (applyFragment true)
        (List.foldl (applyFragment true) fb l2) l1 := by
  induction l1 generalizing fb with
  | nil => rfl
  | cons g l1 ih =>
    simp only [List.foldl_cons]
    rw [ih (applyFragment true fb g)
      (applyFragment_wellFormed true g hwf)
      (fun f1 hf1 => hpair f1 (List.mem_cons_of_mem _ hf1))]
    rw [foldl_applyFragment_swap l2 fb g hwf
      (fun f2 hf2 => hpair g (List.mem_cons_self _ _) f2 hf2)]

/-- Pixels not touched by any fragment of a list keep their color and
depth across the fold. -/
theorem foldl_read_not_covered (dt : Bool) (l : List Fragment)
    (fb : Framebuffer) (x y : Int) (hin : fb.inBounds x y)
    (h : ∀ g ∈ l, ¬ (g.x = x ∧ g.y = y)) :
    (List.foldl (applyFragment dt) fb l).colorAt x y = fb.colorAt x y ∧
      (List.foldl (applyFragment dt) fb l).depthAt x y = fb.depthAt x y := by
  induction l generalizing fb with
  | nil => exact ⟨rfl, rfl⟩
  | cons g l ih =>
    simp only [List.foldl_cons]
    have hg := h g (List.mem_cons_self _ _)
    have hin' : (applyFragment dt fb g).inBounds x y :=
      (applyFragment_inBounds dt fb g x y).mpr hin
    obtain ⟨ihc, ihd⟩ := ih (applyFragment dt fb g) hin'
      (fun g' hg' => h g' (List.mem_cons_of_mem _ hg'))
    exact ⟨ihc.trans (applyFragment_colorAt_ne dt hin hg),
      ihd.trans (applyFragment_depthAt_ne dt hin hg)⟩

/-- With the depth test disabled, the unique fragment of a list at a
pixel determines the final color and depth there ("last fragment wins",
and a rasterized triangle emits at most one fragment per pixel). -/
theorem foldl_false_lastWins (l : List Fragment) (fb : Framebuffer)
    (f : Fragment) (hwf : fb.wellFormed) (hin : fb.inBounds f.x f.y)
    (hf : f ∈ l) (huniq : ∀ g ∈ l, g.x = f.x → g.y = f.y → g = f) :
    (List.foldl (applyFragment false) fb l).colorAt f.x f.y = f.color ∧
      (List.foldl (applyFragment false) fb l).depthAt f.x f.y = f.depth := by
  induction l generalizing fb with
  | nil => cases hf
  | cons g l ih =>
    simp only [List.foldl_cons]
    by_cases hfl : f ∈ l
    · exact ih (applyFragment false fb g)
        (applyFragment_wellFormed false g hwf)
        ((applyFragment_inBounds false fb g f.x f.y).mpr hin) hfl
        (fun g' hg' => huniq g' (List.mem_cons_of_mem _ hg'))
    · have hgf : g = f := by
        rcases List.mem_cons.mp hf with h | h
        · exact h.symm
        · exact absurd h hfl
      subst hgf
      have hnone : ∀ g' ∈ l, ¬ (g'.x = g.x ∧ g'.y = g.y) := by
        intro g' hg' hc
        apply hfl
        have hE := huniq g' (List.mem_cons_of_mem _ hg') hc.1 hc.2
        rw [← hE]
        exact hg'
      have happ : applyFragment false fb g = writeFragment fb g := rfl
      obtain ⟨hc, hd⟩ := foldl_read_not_covered false l
        (applyFragment false fb g) g.x g.y
        ((applyFragment_inBounds false fb g g.x g.y).mpr hin) hnone
      rw [hc, hd, happ]
      exact ⟨writeFragment_colorAt_self hwf hin,
        writeFragment_depthAt_self hwf hin⟩

/-- C7: with the depth test enabled, a fragment that fails the test
leaves the framebuffer completely unchanged (no color write, no depth
write — discard has no side effect), while a passing fragment updates
both the color and the depth at its pixel. -/
theorem depth_test_pass_fail (fb : Framebuffer) (f : Fragment)
    (hwf : fb.wellFormed) (hin : fb.inBounds f.x f.y) :
    (¬ f.depth < fb.depthAt f.x f.y → applyFragment true fb f = fb) ∧
      (f.depth < fb.depthAt f.x f.y →
        (applyFragment true fb f).colorAt f.x f.y = f.color ∧
          (applyFragment true fb f).depthAt f.x f.y = f.depth) := by
  constructor
  · intro hfail
    simp only [applyFragment]
    rw [if_neg hfail]
  · intro hpass
    simp only [applyFragment]
    rw [if_pos hpass]
    exact ⟨writeFragment_colorAt_self hwf hin,
      writeFragment_depthAt_self hwf hin⟩

/-- Witness for C7 at a concrete 1×1 framebuffer (stored depth 10) and a
passing fragment of depth 5: both color and depth are updated. -/
theorem depth_test_pass_fail_witness :
    (applyFragment true (Framebuffer.mk 1 1 [Color.mk 0 0 0 0] [10])
          (Fragment.mk 0 0 5 (Color.mk 1 0 0 1))).colorAt 0 0 =
        Color.mk 1 0 0 1 ∧
      (applyFragment true (Framebuffer.mk 1 1 [Color.mk 0 0 0 0] [10])
          (Fragment.mk 0 0 5 (Color.mk 1 0 0 1))).depthAt 0 0 = 5 :=
  (depth_test_pass_fail (Framebuffer.mk 1 1 [Color.mk 0 0 0 0] [10])
    (Fragment.mk 0 0 5 (Color.mk 1 0 0 1)) (by decide) (by decide)).2
    (by decide)

/-- Red, used by the concrete depth-test examples. -/
def colorRed : Color := Color.mk 1 0 0 1

/-- Green, used by the concrete depth-test examples. -/
def colorGreen : Color := Color.mk 0 1 0 1

/-- A concrete 1×1 framebuffer cleared to transparent black with far
depth 10, used by the concrete depth-test examples. -/
def fbEx : Framebuffer := Framebuffer.mk 1 1 [Color.mk 0 0 0 0] [10]

/-- Vertex `i` of a concrete red triangle `(0,0),(1,0),(0,1)` at depth 0. -/
def vRed (i : Nat) : Vertex :=
  match i with
  | 0 => Vertex.mk (Point.mk 0 0) 0 colorRed
  | 1 => Vertex.mk (Point.mk 1 0) 0 colorRed
  | _ => Vertex.mk (Point.mk 0 1) 0 colorRed

/-- Vertex `i` of a concrete green triangle with the same screen
positions and the same depth 0 (used by the order-dependence
counterexample). -/
def vGreen0 (i : Nat) : Vertex :=
  match i with
  | 0 => Vertex.mk (Point.mk 0 0) 0 colorGreen
  | 1 => Vertex.mk (Point.mk 1 0) 0 colorGreen
  | _ => Vertex.mk (Point.mk 0 1) 0 colorGreen

/-- Vertex `i` of a concrete green triangle with the same screen
positions at the farther depth 5 (used by the order-independence
witness). -/
def vGreen5 (i : Nat) : Vertex :=
  match i with
  | 0 => Vertex.mk (Point.mk 0 0) 5 colorGreen
  | 1 => Vertex.mk (Point.mk 1 0) 5 colorGreen
  | _ => Vertex.mk (Point.mk 0 1) 5 colorGreen

/-- C6 (amended): with depth-test enabled, the final framebuffer after
submitting two triangles is independent of submission order provided
their interpolated depths differ at every pixel covered by both
("closer wins" commutes for distinct depths); with depth-test disabled,
the final color and depth at every pixel of the last-submitted triangle
are that triangle's fragment values ("last submitted wins"). -/
theorem depth_order_semantics (fb : Framebuffer) (u0 u1 u2 t0 t1 t2 : Vertex)
    (hwf : fb.wellFormed) :
    ((∀ f1 ∈ rasterizeTriangle u0 u1 u2, ∀ f2 ∈ rasterizeTriangle t0 t1 t2,
        f1.x = f2.x → f1.y = f2.y → f1.depth ≠ f2.depth) →
      submitTri true (submitTri true fb u0 u1 u2) t0 t1 t2 =
        submitTri true (submitTri true fb t0 t1 t2) u0 u1 u2) ∧
      (∀ f2 ∈ rasterizeTriangle t0 t1 t2, fb.inBounds f2.x f2.y →
        (submitTri false (submitTri false fb u0 u1 u2) t0 t1 t2).colorAt
            f2.x f2.y = f2.color ∧
          (submitTri false (submitTri false fb u0 u1 u2) t0 t1 t2).depthAt
            f2.x f2.y = f2.depth) := by
  constructor
  · intro hdist
    unfold submitTri
    exact foldl_foldl_comm (rasterizeTriangle u0 u1 u2)
      (rasterizeTriangle t0 t1 t2) fb hwf hdist
  · intro f2 hf2 hin
    have huniq : ∀ g ∈ rasterizeTriangle t0 t1 t2,
        g.x = f2.x → g.y = f2.y → g = f2 := by
      intro g hg hgx hgy
      have hgm := (rasterizeTriangle_mem t0 t1 t2 g).mp hg
      have hfm := (rasterizeTriangle_mem t0 t1 t2 f2).mp hf2
      rw [hgm.2.2, hfm.2.2, hgx, hgy]
    have hwf1 : (submitTri false fb u0 u1 u2).wellFormed :=
      foldl_applyFragment_wellFormed false _ hwf
    have hin1 : (submitTri false fb u0 u1 u2).inBounds f2.x f2.y :=
      (foldl_applyFragment_inBounds false _ fb f2.x f2.y).mpr hin
    exact foldl_false_lastWins _ _ f2 hwf1 hin1 hf2 huniq

/-- Witness for C6 (amended) at concrete triangles: a red triangle at
depth 0 and a green one at depth 5 over the same pixel; either
submission order with depth-test enabled yields the same framebuffer. -/
theorem depth_order_semantics_witness :
    submitTri true (submitTri true fbEx (vRed 0) (vRed 1) (vRed 2))
        (vGreen5 0) (vGreen5 1) (vGreen5 2) =
      submitTri true (submitTri true fbEx (vGreen5 0) (vGreen5 1) (vGreen5 2))
        (vRed 0) (vRed 1) (vRed 2) := by
  have h := depth_order_semantics fbEx (vRed 0) (vRed 1) (vRed 2)
    (vGreen5 0) (vGreen5 1) (vGreen5 2) (by decide)
  apply h.1
  intro f1 h1 f2 h2 hx hy
  rw [show rasterizeTriangle (vRed 0) (vRed 1) (vRed 2) =
    [mkFragment (vRed 0) (vRed 1) (vRed 2) (Point.mk 0 0)] from rfl] at h1
  rw [show rasterizeTriangle (vGreen5 0) (vGreen5 1) (vGreen5 2) =
    [mkFragment (vGreen5 0) (vGreen5 1) (vGreen5 2) (Point.mk 0 0)] from
      rfl] at h2
  rw [List.mem_singleton.mp h1, List.mem_singleton.mp h2]
  rw [show (mkFragment (vRed 0) (vRed 1) (vRed 2) (Point.mk 0 0)).depth = 0
    by norm_num [mkFragment, vRed, edgeFn, orient2d]]
  rw [show (mkFragment (vGreen5 0) (vGreen5 1) (vGreen5 2)
      (Point.mk 0 0)).depth = 5
    by norm_num [mkFragment, vGreen5, edgeFn, orient2d]]
  norm_num

/-- Counterexample to C6 as stated: two triangles covering the same
pixel with equal interpolated depths (0) but different colors; with
depth-test enabled and strict "closer wins", the first submitted
triangle keeps the pixel, so the two submission orders give different
framebuffers. -/
theorem depth_order_counterexample :
    ¬ (submitTri true (submitTri true fbEx (vRed 0) (vRed 1) (vRed 2))
          (vGreen0 0) (vGreen0 1) (vGreen0 2) =
        submitTri true
          (submitTri true fbEx (vGreen0 0) (vGreen0 1) (vGreen0 2))
          (vRed 0) (vRed 1) (vRed 2)) := by
  set frR : Fragment :=
    mkFragment (vRed 0) (vRed 1) (vRed 2) (Point.mk 0 0) with hfrR
  set frG : Fragment :=
    mkFragment (vGreen0 0) (vGreen0 1) (vGreen0 2) (Point.mk 0 0) with hfrG
  have hdR : frR.depth = 0 := by
    rw [hfrR]
    norm_num [mkFragment, vRed, edgeFn, orient2d]
  have hdG : frG.depth = 0 := by
    rw [hfrG]
    norm_num [mkFragment, vGreen0, edgeFn, orient2d]
  have hcR : frR.color = colorRed := by
    rw [hfrR]
    norm_num [mkFragment, vRed, edgeFn, orient2d, colorRed]
  have hcG : frG.color = colorGreen := by
    rw [hfrG]
    norm_num [mkFragment, vGreen0, edgeFn, orient2d, colorGreen]
  have eR1 : submitTri true fbEx (vRed 0) (vRed 1) (vRed 2) =
      Framebuffer.mk 1 1 [frR.color] [frR.depth] := by
    have hstep : submitTri true fbEx (vRed 0) (vRed 1) (vRed 2) =
        applyFragment true fbEx frR := rfl
    rw [hstep]
    have hcond : frR.depth < fbEx.depthAt frR.x frR.y := by
      rw [hdR, show fbEx.depthAt frR.x frR.y = 10 from rfl]
      norm_num
    simp only [applyFragment]
    rw [if_pos hcond]
    unfold writeFragment
    rw [if_pos (show fbEx.inBounds frR.x frR.y by decide)]
    rfl
  have eG1 : submitTri true fbEx (vGreen0 0) (vGreen0 1) (vGreen0 2) =
      Framebuffer.mk 1 1 [frG.color] [frG.depth] := by
    have hstep : submitTri true fbEx (vGreen0 0) (vGreen0 1) (vGreen0 2) =
        applyFragment true fbEx frG := rfl
    rw [hstep]
    have hcond : frG.depth < fbEx.depthAt frG.x frG.y := by
      rw [hdG, show fbEx.depthAt frG.x frG.y = 10 from rfl]
      norm_num
    simp only [applyFragment]
    rw [if_pos hcond]
    unfold writeFragment
    rw [if_pos (show fbEx.inBounds frG.x frG.y by decide)]
    rfl
  have eR2 : submitTri true (Framebuffer.mk 1 1 [frR.color] [frR.depth])
      (vGreen0 0) (vGreen0 1) (vGreen0 2) =
        Framebuffer.mk 1 1 [frR.color] [frR.depth] := by
    have hstep : submitTri true (Framebuffer.mk 1 1 [frR.color] [frR.depth])
        (vGreen0 0) (vGreen0 1) (vGreen0 2) =
          applyFragment true (Framebuffer.mk 1 1 [frR.color] [frR.depth])
            frG := rfl
    rw [hstep]
    have hcond : ¬ frG.depth <
        (Framebuffer.mk 1 1 [frR.color] [frR.depth]).depthAt frG.x frG.y := by
      rw [show (Framebuffer.mk 1 1 [frR.color] [frR.depth]).depthAt
          frG.x frG.y = frR.depth from rfl, hdG, hdR]
      exact lt_irrefl 0
    simp only [applyFragment]
    rw [if_neg hcond]
  have eG2 : submitTri true (Framebuffer.mk 1 1 [frG.color] [frG.depth])
      (vRed 0) (vRed 1) (vRed 2) =
        Framebuffer.mk 1 1 [frG.color] [frG.depth] := by
    have hstep : submitTri true (Framebuffer.mk 1 1 [frG.color] [frG.depth])
        (vRed 0) (vRed 1) (vRed 2) =
          applyFragment true (Framebuffer.mk 1 1 [frG.color] [frG.depth])
            frR := rfl
    rw [hstep]
    have hcond : ¬ frR.depth <
        (Framebuffer.mk 1 1 [frG.color] [frG.depth]).depthAt frR.x frR.y := by
      rw [show (Framebuffer.mk 1 1 [frG.color] [frG.depth]).depthAt
          frR.x frR.y = frG.depth from rfl, hdR, hdG]
      exact lt_irrefl 0
    simp only [applyFragment]
    rw [if_neg hcond]
  intro heq
  rw [eR1, eR2, eG1, eG2] at heq
  injection heq with hw hh hcp hdp
  injection hcp with hc hrest
  rw [hcR, hcG] at hc
  exact absurd hc (by decide)

end SWRast
